import Mathlib

/-!
Verification of the qpress archive decoder (go-qpress).

The Go source is shallowly embedded: the byte stream handed to an
`io.Reader` becomes a `List Nat` of bytes that each read consumes from
the front, the filesystem becomes an explicit `FS` value, Go errors
become the inductive `GoErr` (with their message strings as `List Char`
so that the `strings.HasPrefix` test in `ArchiveFile.Decompress` can be
modelled literally), and a Go panic (slice-bounds violation) becomes a
distinguished `panicked` outcome.  The decoding loops of the source are
embedded with an explicit fuel argument; the exported wrappers invoke
them with fuel `s.length + 1`, which is always sufficient because every
loop iteration consumes at least the one type byte (proved below), so
the wrappers compute the very function the Go loops compute.
-/

/-- Characters of a string literal (Go strings are byte/char sequences). -/
def strData (s : String) : List Char := s.data

/-- Errors of the embedded Go code.  `msg` holds the rendered message of
an error created with `fmt.Errorf`; `exist`/`permission` model the typed
`os` errors recognised by `os.IsExist`. -/
inductive GoErr where
  | eof : GoErr
  | unexpectedEOF : GoErr
  | exist : List Char → GoErr
  | permission : List Char → GoErr
  | msg : List Char → GoErr
deriving DecidableEq, Repr

/-- The string returned by `Error()` on the modelled error values. -/
def errMsg : GoErr → List Char
  | .eof => strData "EOF"
  | .unexpectedEOF => strData "unexpected EOF"
  | .exist p => strData "mkdir " ++ p ++ strData ": file exists"
  | .permission p => strData "mkdir " ++ p ++ strData ": permission denied"
  | .msg m => m

/-- Models `os.IsExist`. -/
def isExistErr : GoErr → Bool
  | .exist _ => true
  | _ => false

/-- Outcome of a pure read on a byte stream: success with the value and
the remaining stream, a Go error, or a Go panic. -/
inductive PR (α : Type) where
  | ok : α → List Nat → PR α
  | err : GoErr → PR α
  | panicked : PR α
deriving DecidableEq

/-- Models `binary.Read` of `n` bytes, i.e. `io.ReadFull` semantics: `io.EOF`
when nothing can be read, `io.ErrUnexpectedEOF` on a short read. -/
def readBytesP (n : Nat) (s : List Nat) : PR (List Nat) :=
  if s = [] ∧ 0 < n then .err .eof
  else if s.length < n then .err .unexpectedEOF
  else .ok (s.take n) (s.drop n)

/-- Models `ReadByte` (src line 576): `binary.Read` of a single byte. -/
def readByteP (s : List Nat) : PR Nat :=
  match s with
  | [] => .err .eof
  | b :: rest => .ok b rest

/-- Little-endian interpretation of a byte list (used for the `ui32` and
`ui64` fields of the wire format). -/
def leNum (bs : List Nat) : Nat := bs.foldr (fun b acc => b + 256 * acc) 0

/-- Models `"qpress10"`, the archive magic (src line 72). -/
def qpressMagic : List Nat := [113, 112, 114, 101, 115, 115, 49, 48]

/-- Models `BlockStarter[1:]`, i.e. `"EWBNEWB"` (src lines 73, 508). -/
def blockStarterTail : List Nat := [69, 87, 66, 78, 69, 87, 66]

/-- Models `TrailerStarter[1:]`, i.e. `"NDSENDS"` (src lines 74, 568). -/
def trailerStarterTail : List Nat := [78, 68, 83, 69, 78, 68, 83]

/-- Models `TypeDown = 'D'`. -/
def typeDown : Nat := 68
/-- Models `TypeUp = 'U'`. -/
def typeUp : Nat := 85
/-- Models `TypeFile = 'F'`. -/
def typeFile : Nat := 70
/-- Models `TypeNew = 'N'`. -/
def typeNew : Nat := 78
/-- Models `TypeEnd = 'E'`. -/
def typeEnd : Nat := 69

/-- Modelled from the spec: the external codec adapter
(`quicklz.Size_compressed`) reads the declared compressed total size
from the 9-byte mini-header: long-header form (flag bit 1 of byte 0
set) stores it as a `u32` little-endian in bytes 1..4, the short form
stores it in byte 1. -/
def qlzSizeCompressed (h : List Nat) : Nat :=
  if (h.getD 0 0).testBit 1 then leNum ((h.drop 1).take 4) else h.getD 1 0

/-- Modelled from the spec: the external codec adapter
(`quicklz.Size_decompressed`) reads the declared decompressed size from
the 9-byte mini-header: long form in bytes 5..8, short form in byte 2. -/
def qlzSizeDecompressed (h : List Nat) : Nat :=
  if (h.getD 0 0).testBit 1 then leNum ((h.drop 5).take 4) else h.getD 2 0

/-- The `DataBlock` struct (src lines 144-153), byte arrays as lists. -/
structure DataBlockM where
  StarterTail : List Nat
  RecoverInfo : List Nat
  Checksum : List Nat
  CompressedChunk : List Nat
  CompressedSize : Nat
  DecompressedSize : Nat
  DecompressedOffset : Nat
deriving DecidableEq, Repr

/-- Models `NewDataBlock` (src lines 485-493): fresh zeroed fields, with the
compressed buffer allocated as `make([]byte, ChunkSize, ChunkSize+400)`. -/
def newDataBlock (chunkSize : Nat) : DataBlockM :=
  { StarterTail := List.replicate 7 0
    RecoverInfo := List.replicate 8 0
    Checksum := List.replicate 4 0
    CompressedChunk := List.replicate chunkSize 0
    CompressedSize := 0
    DecompressedSize := 0
    DecompressedOffset := 0 }

/-- Models `DataBlock.ReadChunk` (src lines 531-548).  The 9-byte mini-header is
read into `CompressedChunk[:9]` (legal up to the capacity
`chunkSize + 400`), the codec reports the compressed total size, and the
payload is read into `CompressedChunk[9:CompressedSize]` — a slice
expression that panics unless `9 ≤ CompressedSize ≤ chunkSize + 400`.
The updated buffer keeps its length `chunkSize`; bytes written beyond it
(into the capacity region) are not visible through it. -/
def readChunkP (chunkSize : Nat) (blk : DataBlockM) (s : List Nat) : PR DataBlockM :=
  match readBytesP 9 s with
  | .panicked => .panicked
  | .err e => .err e
  | .ok header s1 =>
    let cs := qlzSizeCompressed header
    if 9 ≤ cs ∧ cs ≤ chunkSize + 400 then
      match readBytesP (cs - 9) s1 with
      | .panicked => .panicked
      | .err e => .err e
      | .ok payload s2 =>
        .ok { blk with
                CompressedSize := cs
                DecompressedSize := qlzSizeDecompressed header
                CompressedChunk :=
                  (header ++ payload ++ blk.CompressedChunk.drop cs).take chunkSize } s2
    else .panicked

/-- Models `DataBlock.ReadBlock` (src lines 503-524): starter tail (checked),
recovery info, checksum, then the codec-framed chunk. -/
def readBlockM (chunkSize : Nat) (blk : DataBlockM) (s : List Nat) : PR DataBlockM :=
  match readBytesP 7 s with
  | .panicked => .panicked
  | .err e => .err e
  | .ok tail7 s1 =>
    if tail7 = blockStarterTail then
      match readBytesP 8 s1 with
      | .panicked => .panicked
      | .err e => .err e
      | .ok ri s2 =>
        match readBytesP 4 s2 with
        | .panicked => .panicked
        | .err e => .err e
        | .ok ck s3 =>
          readChunkP chunkSize { blk with StarterTail := tail7, RecoverInfo := ri, Checksum := ck } s3
    else .err (.msg (strData "invalid block starter tail: " ++ tail7.map Char.ofNat))

/-- Models `FileTrailer.ReadTrailer` (src lines 563-574): trailer tail
(checked), then the 8-byte recovery info. -/
def readTrailerP (s : List Nat) : PR Unit :=
  match readBytesP 7 s with
  | .panicked => .panicked
  | .err e => .err e
  | .ok tail7 s1 =>
    if tail7 = trailerStarterTail then
      match readBytesP 8 s1 with
      | .panicked => .panicked
      | .err e => .err e
      | .ok _ s2 => .ok () s2
    else .err (.msg (strData "invalid trailer starter tail: " ++ tail7.map Char.ofNat))

/-- Models `TargetHeader.ReadHeader` (src lines 337-344):
`ReadLengthU32EncodedString` (length-prefixed name) followed by
`ReadTerminator` (a mandatory zero byte).  Returns the name bytes. -/
def readTargetHeaderP (s : List Nat) : PR (List Nat) :=
  match readBytesP 4 s with
  | .panicked => .panicked
  | .err e => .err e
  | .ok lenBytes s1 =>
    match readBytesP (leNum lenBytes) s1 with
    | .panicked => .panicked
    | .err e => .err e
    | .ok name s2 =>
      match readByteP s2 with
      | .panicked => .panicked
      | .err e => .err (.msg (strData "read terminator failed: " ++ errMsg e))
      | .ok b s3 =>
        if b = 0 then .ok name s3
        else .err (.msg (strData "invalid terminator: " ++ [Char.ofNat b]))

/-- Models `ArchiveHeader.ReadFileHeader` (src lines 318-335): the 8-byte magic
checked against `"qpress10"`, then the little-endian `u64` chunk size,
which is recorded for the session (returned here and threaded to every
later block read). -/
def readFileHeaderP (s : List Nat) : PR Nat :=
  match readBytesP 8 s with
  | .panicked => .panicked
  | .err e => .err (.msg (strData "read magic failed: " ++ errMsg e))
  | .ok magic s1 =>
    if magic = qpressMagic then
      match readBytesP 8 s1 with
      | .panicked => .panicked
      | .err e => .err (.msg (strData "read chunk size failed: " ++ errMsg e))
      | .ok csBytes s2 => .ok (leNum csBytes) s2
    else .err (.msg (strData "invalid magic: " ++ magic.map Char.ofNat))

/-- A destination file's content: byte value at each offset, `none`
where nothing has been written (reads of such holes yield zeros on a
real sparse file, but no task ever wrote there). -/
def FileC : Type := Nat → Option Nat

/-- A freshly created (empty) file. -/
def emptyFile : FileC := fun _ => none

/-- The filesystem visible to the decoder: regular files by path,
directories by path, and whether directory creation is denied by the
environment (models an `os.Mkdir` failure other than `EEXIST`). -/
structure FS where
  files : List (List Char × FileC)
  dirs : List (List Char)
  mkdirDenied : Bool

/-- Models `os.Stat` succeeding on a path: a file or a directory exists there. -/
def statExists (fs : FS) (p : List Char) : Bool :=
  (fs.files.lookup p).isSome || fs.dirs.contains p

/-- Models `os.OpenFile(path, O_CREATE|O_WRONLY, 0640)` on a non-existing path:
creates the file with the given content. -/
def fsCreateFile (fs : FS) (p : List Char) (c : FileC) : FS :=
  { fs with files := (p, c) :: fs.files }

/-- Models `os.Mkdir("tmp", 0755)` (src lines 199, 260): `EEXIST` if the
directory is present, a permission error if the environment denies it,
otherwise the directory is created. -/
def osMkdirTmp (fs : FS) : Except GoErr FS :=
  if fs.dirs.contains (strData "tmp") then .error (.exist (strData "tmp"))
  else if fs.mkdirDenied then .error (.permission (strData "tmp"))
  else .ok { fs with dirs := strData "tmp" :: fs.dirs }

/-- Simplified model of `filepath.Join(baseDIR, name)` (no path
cleaning): empty base yields the name, otherwise the two are joined
with a separator. -/
def joinPath (a b : List Char) : List Char :=
  if a = [] then b else a ++ '/' :: b

/-- Models `f.WriteAt(bs, off)`: positional write, leaving all other offsets of
the file untouched. -/
def writeAtF (f : FileC) (off : Nat) (bs : List Nat) : FileC :=
  fun i => if off ≤ i ∧ i < off + bs.length then some (bs.getD (i - off) 0) else f i

/-- One submitted pool task (src lines 408-420): allocate a buffer of
the block's declared decompressed size, decompress the block's
compressed buffer into it, and positionally write it at the block's
precomputed `DecompressedOffset`; a decompression failure is only
logged, so the task then writes nothing. `dec` is the external
`quicklz` decompressor: given the compressed buffer and the destination
buffer length it yields the filled buffer, or `none` on failure. -/
def runTask (dec : List Nat → Nat → Option (List Nat)) (f : FileC) (b : DataBlockM) : FileC :=
  match dec b.CompressedChunk b.DecompressedSize with
  | none => f
  | some bs => writeAtF f b.DecompressedOffset bs

/-- Executing a list of submitted tasks in the given order. -/
def runTasks (dec : List Nat → Nat → Option (List Nat)) (f : FileC) (ts : List DataBlockM) : FileC :=
  ts.foldl (runTask dec) f

/-- The message of the partial-limit error
`fmt.Errorf("partial decompress to limited size %d", limitSize)`
(src lines 405, 460), split as the literal prefix tested by
`strings.HasPrefix` in `ArchiveFile.Decompress` followed by the
formatted limit. -/
def pdLead : List Char := strData "partial decompress to limited size"

/-- The rendered partial-limit error message. -/
def partialMsg (limit : Int) : List Char := pdLead ++ ' ' :: (toString limit).data

deriving instance DecidableEq for Except

/-- Result of one iteration of the block loop shared verbatim by
`FileTarget.Decompress` (src lines 389-430) and
`FileTarget.DecompressStream` (src lines 444-462) up to the point where
the two variants diverge: `halt` ends the file decode (trailer reached,
or an error — including the partial-limit abort), `next` hands over a
parsed block whose `DecompressedOffset` has been set to the running
offset. -/
inductive BlockStep where
  | panicked : BlockStep
  | halt : Except GoErr Unit → List Nat → BlockStep
  | next : DataBlockM → List Nat → BlockStep
deriving DecidableEq

/-- One iteration of the per-file block loop: read the type byte; on
`'N'` parse a block with `NewDataBlock`/`ReadBlock`, apply the size
limit rule (`limitSize > 0 && offset+DecompressedSize > limitSize`
aborts with the partial error), and otherwise stamp the block with the
running offset; on `'E'` read the trailer and stop; any other byte is a
format error. -/
def fileBlockStep (chunkSize : Nat) (limit : Int) (offset : Nat) (s : List Nat) : BlockStep :=
  match readByteP s with
  | .panicked => .panicked
  | .err e =>
    .halt (.error (.msg (strData "read type " ++ [Char.ofNat 0] ++ strData " failed: " ++ errMsg e))) s
  | .ok b s1 =>
    if b = typeNew then
      match readBlockM chunkSize (newDataBlock chunkSize) s1 with
      | .panicked => .panicked
      | .err e => .halt (.error (.msg (strData "decompress block failed: " ++ errMsg e))) s1
      | .ok blk s2 =>
        if 0 < limit ∧ limit < (offset : Int) + (blk.DecompressedSize : Int) then
          .halt (.error (.msg (partialMsg limit))) s2
        else .next { blk with DecompressedOffset := offset } s2
    else if b = typeEnd then
      match readTrailerP s1 with
      | .panicked => .panicked
      | .err e => .halt (.error (.msg (strData "read trailer failed: " ++ errMsg e))) s1
      | .ok _ s2 => .halt (.ok ()) s2
    else
      .halt (.error (.msg (strData "invalid block header, 'N' or 'E' not found, get: [" ++
        (toString b).data ++ [']']))) s1

/-- Final state of the per-file block loop of `FileTarget.Decompress`:
the submitted tasks in submission order, the loop's result, and the
stream position reached. -/
inductive BlocksOut where
  | panicked : BlocksOut
  | out : List DataBlockM → Except GoErr Unit → List Nat → BlocksOut
deriving DecidableEq

/-- Fueled form of the block loop of `FileTarget.Decompress`
(src lines 389-431).  Each iteration consumes at least one byte, so any
fuel exceeding the stream length makes the fuel bound unreachable. -/
def fileBlocksLoopF : Nat → Nat → Int → Nat → List Nat → BlocksOut
  | 0, _, _, _, s => .out [] (.ok ()) s
  | fuel + 1, chunkSize, limit, offset, s =>
    match fileBlockStep chunkSize limit offset s with
    | .panicked => .panicked
    | .halt res s' => .out [] res s'
    | .next blk s' =>
      match fileBlocksLoopF fuel chunkSize limit (offset + blk.DecompressedSize) s' with
      | .panicked => .panicked
      | .out ts res s'' => .out (blk :: ts) res s''

/-- The block loop of `FileTarget.Decompress`, entered with fuel that
the loop (consuming at least one byte per iteration) can never exhaust. -/
def fileBlocksLoop (chunkSize : Nat) (limit : Int) (offset : Nat) (s : List Nat) : BlocksOut :=
  fileBlocksLoopF (s.length + 1) chunkSize limit offset s

/-- Result of a stateful decode: a Go panic, or a result together with
the remaining stream and the filesystem. -/
inductive DRes (α : Type) where
  | panicked : DRes α
  | out : Except GoErr α → List Nat → FS → DRes α

/-- Models `FileTarget.Decompress` (src lines 358-432): read the file name
header, fail if the destination path already exists (`os.Stat`
succeeding), otherwise create the destination file and run the block
loop; the deferred `pool.StopAndWait()` drains every submitted task, so
on return the created file holds the tasks' writes (starting from the
empty just-created file), whatever order the pool ran them in. -/
def fileTargetDecompress (dec : List Nat → Nat → Option (List Nat)) (chunkSize : Nat)
    (baseDIR : List Char) (limit : Int) (s : List Nat) (fs : FS) : DRes Unit :=
  match readTargetHeaderP s with
  | .panicked => .panicked
  | .err e => .out (.error e) s fs
  | .ok name s1 =>
    let path := joinPath baseDIR (name.map Char.ofNat)
    if statExists fs path then
      .out (.error (.msg (strData "file " ++ path ++ strData " already exists"))) s1 fs
    else
      match fileBlocksLoop chunkSize limit 0 s1 with
      | .panicked => .panicked
      | .out ts res s2 =>
        .out res s2 (fsCreateFile fs path (runTasks dec emptyFile ts))

/-- Result of the streaming per-file decode: a panic, or the result
with the remaining stream and the bytes written to the sink. -/
inductive SRes (α : Type) where
  | panicked : SRes α
  | out : Except GoErr α → List Nat → List Nat → SRes α
deriving DecidableEq

/-- Fueled block loop of `FileTarget.DecompressStream`
(src lines 444-482): identical parsing and limit rule as the positional
variant (shared `fileBlockStep`), but each block is decompressed
synchronously — a decompression failure is a fatal error here — and its
bytes are appended to the sink in stream order. -/
def fileStreamLoopF (dec : List Nat → Nat → Option (List Nat)) :
    Nat → Nat → Int → Nat → List Nat → SRes Unit
  | 0, _, _, _, s => .out (.ok ()) s []
  | fuel + 1, chunkSize, limit, offset, s =>
    match fileBlockStep chunkSize limit offset s with
    | .panicked => .panicked
    | .halt res s' => .out res s' []
    | .next blk s' =>
      match dec blk.CompressedChunk blk.DecompressedSize with
      | none => .out (.error (.msg (strData "decompress chunk failed: decompress error"))) s' []
      | some bs =>
        match fileStreamLoopF dec fuel chunkSize limit (offset + blk.DecompressedSize) s' with
        | .panicked => .panicked
        | .out res s'' w => .out res s'' (bs ++ w)

/-- The block loop of `FileTarget.DecompressStream`. -/
def fileStreamLoop (dec : List Nat → Nat → Option (List Nat)) (chunkSize : Nat) (limit : Int)
    (offset : Nat) (s : List Nat) : SRes Unit :=
  fileStreamLoopF dec (s.length + 1) chunkSize limit offset s

/-- Models `FileTarget.DecompressStream` (src lines 434-483): read the file
name header (the name is not used — no file is created), then run the
streaming block loop. -/
def fileTargetDecompressStream (dec : List Nat → Nat → Option (List Nat)) (chunkSize : Nat)
    (limit : Int) (s : List Nat) : SRes Unit :=
  match readTargetHeaderP s with
  | .panicked => .panicked
  | .err e => .out (.error e) s []
  | .ok _ s1 => fileStreamLoop dec chunkSize limit 0 s1

/-- Result of one iteration of the archive target loop of
`ArchiveFile.Decompress`: `halt` ends the decode with the
`(isPartial, err)` pair, `next` continues with the next target. -/
inductive ArchStep where
  | panicked : ArchStep
  | halt : Except GoErr Bool → List Nat → FS → ArchStep
  | next : List Nat → FS → ArchStep

/-- One iteration of the target loop of `ArchiveFile.Decompress`
(src lines 204-251): end-of-stream or a zero type byte terminate
cleanly with `isPartial = false`; `'D'` parses the directory record and
fails unsupported; `'U'` fails unsupported (its `ReadHeader` override
reads nothing); `'F'` delegates to `FileTarget.Decompress`, turning an
error whose message starts with the partial-limit prefix into a clean
`isPartial = true` return; any other byte is an unknown-type error. -/
def archiveStep (dec : List Nat → Nat → Option (List Nat)) (chunkSize : Nat) (baseDIR : List Char)
    (limit : Int) (s : List Nat) (fs : FS) : ArchStep :=
  match readByteP s with
  | .panicked => .panicked
  | .err e =>
    if e = .eof then .halt (.ok false) s fs
    else .halt (.error (.msg (strData "read type " ++ [Char.ofNat 0] ++ strData " failed: " ++ errMsg e))) s fs
  | .ok b s1 =>
    if b = 0 then .halt (.ok false) s1 fs
    else if b = typeDown then
      match readTargetHeaderP s1 with
      | .panicked => .panicked
      | .err e => .halt (.error e) s1 fs
      | .ok _ s2 => .halt (.error (.msg (strData "unsupport down directory"))) s2 fs
    else if b = typeUp then
      .halt (.error (.msg (strData "unsupport up directory"))) s1 fs
    else if b = typeFile then
      match fileTargetDecompress dec chunkSize baseDIR limit s1 fs with
      | .panicked => .panicked
      | .out (.error e) s2 fs2 =>
        if pdLead.isPrefixOf (errMsg e) then .halt (.ok true) s2 fs2
        else .halt (.error e) s2 fs2
      | .out (.ok _) s2 fs2 => .next s2 fs2
    else .halt (.error (.msg (strData "unknown type: " ++ [Char.ofNat b]))) s1 fs

/-- Fueled target loop of `ArchiveFile.Decompress`. -/
def archiveLoopF (dec : List Nat → Nat → Option (List Nat)) :
    Nat → Nat → List Char → Int → List Nat → FS → DRes Bool
  | 0, _, _, _, s, fs => .out (.ok false) s fs
  | fuel + 1, chunkSize, baseDIR, limit, s, fs =>
    match archiveStep dec chunkSize baseDIR limit s fs with
    | .panicked => .panicked
    | .halt res s' fs' => .out res s' fs'
    | .next s' fs' => archiveLoopF dec fuel chunkSize baseDIR limit s' fs'

/-- The target loop of `ArchiveFile.Decompress` (src lines 204-251). -/
def archiveLoop (dec : List Nat → Nat → Option (List Nat)) (chunkSize : Nat) (baseDIR : List Char)
    (limit : Int) (s : List Nat) (fs : FS) : DRes Bool :=
  archiveLoopF dec (s.length + 1) chunkSize baseDIR limit s fs

/-- Models `ArchiveFile.Decompress` (src lines 193-252): read and validate the
archive header, create the working directory `"tmp"` (an already
existing one is tolerated via `os.IsExist`, any other failure aborts),
then run the target loop with the header's chunk size. -/
def archiveDecompress (dec : List Nat → Nat → Option (List Nat)) (baseDIR : List Char)
    (limit : Int) (s : List Nat) (fs : FS) : DRes Bool :=
  match readFileHeaderP s with
  | .panicked => .panicked
  | .err e => .out (.error (.msg (strData "read file header failed: " ++ errMsg e))) s fs
  | .ok chunkSize s1 =>
    match osMkdirTmp fs with
    | .error e =>
      if isExistErr e then archiveLoop dec chunkSize baseDIR limit s1 fs
      else .out (.error e) s1 fs
    | .ok fs1 => archiveLoop dec chunkSize baseDIR limit s1 fs1

/-- Result of the streaming archive decode: a panic, or the
`(isPartial, err)` pair with the remaining stream, the filesystem (only
the `"tmp"` directory creation touches it) and the bytes written to the
sink. -/
inductive WARes where
  | panicked : WARes
  | out : Except GoErr Bool → List Nat → FS → List Nat → WARes

/-- Result of one iteration of the target loop of
`ArchiveFile.DecompressStream`. -/
inductive SArchStep where
  | panicked : SArchStep
  | halt : Except GoErr Bool → List Nat → List Nat → SArchStep
  | next : List Nat → List Nat → SArchStep

/-- One iteration of the target loop of `ArchiveFile.DecompressStream`
(src lines 265-312): identical dispatch to `ArchiveFile.Decompress`,
with `'F'` delegating to `FileTarget.DecompressStream`. -/
def archiveStreamStep (dec : List Nat → Nat → Option (List Nat)) (chunkSize : Nat) (limit : Int)
    (s : List Nat) : SArchStep :=
  match readByteP s with
  | .panicked => .panicked
  | .err e =>
    if e = .eof then .halt (.ok false) s []
    else .halt (.error (.msg (strData "read type " ++ [Char.ofNat 0] ++ strData " failed: " ++ errMsg e))) s []
  | .ok b s1 =>
    if b = 0 then .halt (.ok false) s1 []
    else if b = typeDown then
      match readTargetHeaderP s1 with
      | .panicked => .panicked
      | .err e => .halt (.error e) s1 []
      | .ok _ s2 => .halt (.error (.msg (strData "unsupport down directory"))) s2 []
    else if b = typeUp then
      .halt (.error (.msg (strData "unsupport up directory"))) s1 []
    else if b = typeFile then
      match fileTargetDecompressStream dec chunkSize limit s1 with
      | .panicked => .panicked
      | .out (.error e) s2 w =>
        if pdLead.isPrefixOf (errMsg e) then .halt (.ok true) s2 w
        else .halt (.error e) s2 w
      | .out (.ok _) s2 w => .next s2 w
    else .halt (.error (.msg (strData "unknown type: " ++ [Char.ofNat b]))) s1 []

/-- Fueled target loop of `ArchiveFile.DecompressStream`, accumulating
the bytes written to the sink. -/
def archiveStreamLoopF (dec : List Nat → Nat → Option (List Nat)) :
    Nat → Nat → Int → List Nat → SRes Bool
  | 0, _, _, s => .out (.ok false) s []
  | fuel + 1, chunkSize, limit, s =>
    match archiveStreamStep dec chunkSize limit s with
    | .panicked => .panicked
    | .halt res s' w => .out res s' w
    | .next s' w =>
      match archiveStreamLoopF dec fuel chunkSize limit s' with
      | .panicked => .panicked
      | .out res s'' w' => .out res s'' (w ++ w')

/-- The target loop of `ArchiveFile.DecompressStream`. -/
def archiveStreamLoop (dec : List Nat → Nat → Option (List Nat)) (chunkSize : Nat) (limit : Int)
    (s : List Nat) : SRes Bool :=
  archiveStreamLoopF dec (s.length + 1) chunkSize limit s

/-- Models `ArchiveFile.DecompressStream` (src lines 254-313): read and
validate the archive header, create the working directory `"tmp"`
exactly as `ArchiveFile.Decompress` does, then run the streaming target
loop with the header's chunk size. -/
def archiveDecompressStream (dec : List Nat → Nat → Option (List Nat)) (limit : Int)
    (s : List Nat) (fs : FS) : WARes :=
  match readFileHeaderP s with
  | .panicked => .panicked
  | .err e => .out (.error (.msg (strData "read file header failed: " ++ errMsg e))) s fs []
  | .ok chunkSize s1 =>
    match osMkdirTmp fs with
    | .error e =>
      if isExistErr e then
        match archiveStreamLoop dec chunkSize limit s1 with
        | .panicked => .panicked
        | .out res s2 w => .out res s2 fs w
      else .out (.error e) s1 fs []
    | .ok fs1 =>
      match archiveStreamLoop dec chunkSize limit s1 with
      | .panicked => .panicked
      | .out res s2 w => .out res s2 fs1 w

/-- The `"hello"` data block of the example archive documented at the
top of the source (bytes `0x10`–`0x3a`), without its leading `'N'`. -/
def helloBlockBytes : List Nat :=
  blockStarterTail ++ List.replicate 8 0 ++ [235, 2, 37, 13] ++
    [69, 12, 5, 0, 0, 0, 128, 104, 101] ++ [108, 108, 111]

/-- The `"there"` data block of the example archive (bytes `0x6b`–`0x87`),
without its leading `'N'`. -/
def thereBlockBytes : List Nat :=
  blockStarterTail ++ List.replicate 8 0 ++ [239, 2, 90, 13] ++
    [69, 12, 5, 0, 0, 0, 128, 116, 104] ++ [101, 114, 101]

/-- A file trailer record without its leading `'E'`. -/
def trailerBytes : List Nat := trailerStarterTail ++ List.replicate 8 0

/-- A two-block file body (after the file name header): the `"hello"`
block, the `"there"` block, then the trailer. -/
def twoBlockBody : List Nat :=
  typeNew :: helloBlockBytes ++ typeNew :: thereBlockBytes ++ typeEnd :: trailerBytes

/-- Sum of the declared decompressed sizes of a list of blocks. -/
def sumSizes (ts : List DataBlockM) : Nat := (ts.map fun b => b.DecompressedSize).sum

/-- The offsets of a block list form the running-total chain starting at
`o`: the head is stamped `o` and the rest chain from `o` plus the
head's decompressed size. -/
def ChainFrom : Nat → List DataBlockM → Prop
  | _, [] => True
  | o, b :: ts => b.DecompressedOffset = o ∧ ChainFrom (o + b.DecompressedSize) ts

/-- Ordered range-disjointness of two tasks: `x`'s destination byte
range ends at or before `y`'s begins. -/
def Disj (x y : DataBlockM) : Prop :=
  x.DecompressedOffset + x.DecompressedSize ≤ y.DecompressedOffset

/-- The `"hello"` block as `ReadBlock` parses it with chunk size 16. -/
def helloParsedBlock : DataBlockM :=
  { StarterTail := blockStarterTail
    RecoverInfo := List.replicate 8 0
    Checksum := [235, 2, 37, 13]
    CompressedChunk := [69, 12, 5, 0, 0, 0, 128, 104, 101, 108, 108, 111, 0, 0, 0, 0]
    CompressedSize := 12
    DecompressedSize := 5
    DecompressedOffset := 0 }

/-- The `"there"` block as `ReadBlock` parses it with chunk size 16,
stamped with destination offset 5. -/
def thereParsedBlock : DataBlockM :=
  { StarterTail := blockStarterTail
    RecoverInfo := List.replicate 8 0
    Checksum := [239, 2, 90, 13]
    CompressedChunk := [69, 12, 5, 0, 0, 0, 128, 116, 104, 101, 114, 101, 0, 0, 0, 0]
    CompressedSize := 12
    DecompressedSize := 5
    DecompressedOffset := 5 }

/-- The two blocks of `twoBlockBody` as the decoder parses and stamps
them (chunk size 16). -/
def twoBlocksParsed : List DataBlockM := [helloParsedBlock, thereParsedBlock]

/-- A decompressor model for witnesses: fills the destination buffer
with zeros (always succeeds, output length equals the buffer length). -/
def decZeros : List Nat → Nat → Option (List Nat) := fun _ n => some (List.replicate n 0)

/-- A decompressor model for witnesses: always fails (the positional
variant only logs such failures). -/
def decNone : List Nat → Nat → Option (List Nat) := fun _ _ => none

/-- An empty filesystem with directory creation allowed. -/
def emptyFS : FS := { files := [], dirs := [], mkdirDenied := false }

/-- A `"c.txt"` file record body (after the `'F'` byte): length-prefixed
name, zero terminator, then `twoBlockBody`. -/
def fileBodyCTxt : List Nat :=
  [5, 0, 0, 0] ++ [99, 46, 116, 120, 116] ++ [0] ++ twoBlockBody

/-- A complete archive: magic, chunk size 16, one `"c.txt"` file record. -/
def archiveCTxt : List Nat :=
  qpressMagic ++ [16, 0, 0, 0, 0, 0, 0, 0] ++ typeFile :: fileBodyCTxt

/-- A block record whose codec mini-header uses the long form and
declares a compressed total size of 500 (flag byte `0x46`, `u32` 500,
decompressed size 5): with chunk size 16 this exceeds the buffer
capacity `16 + 400` and the payload slice expression panics. -/
def panicBlockBytes : List Nat :=
  blockStarterTail ++ List.replicate 8 0 ++ [235, 2, 37, 13] ++ [70, 244, 1, 0, 0, 5, 0, 0, 0]

/-- A filesystem that already holds a file at `out/c.txt`. -/
def fsWithCTxt : FS :=
  { files := [(joinPath (strData "out") (strData "c.txt"), emptyFile)]
    dirs := []
    mkdirDenied := false }

theorem readBytesP_ok_length {n : Nat} {s v s' : List Nat} (h : readBytesP n s = .ok v s') :
    s'.length ≤ s.length := by
  unfold readBytesP at h
  split at h
  · simp at h
  · split at h
    · simp at h
    · injection h with h1 h2
      subst h2
      simp

theorem readByteP_ok_length {s : List Nat} {b : Nat} {s' : List Nat}
    (h : readByteP s = .ok b s') : s'.length < s.length := by
  unfold readByteP at h
  match s, h with
  | x :: rest, h =>
    injection h with h1 h2
    subst h2
    simp

theorem readChunkP_ok_length {c : Nat} {blk blk' : DataBlockM} {s s' : List Nat}
    (h : readChunkP c blk s = .ok blk' s') : s'.length ≤ s.length := by
  unfold readChunkP at h
  split at h
  · simp at h
  · simp at h
  · rename_i header s1 h9
    dsimp only at h
    split at h
    · split at h
      · simp at h
      · simp at h
      · rename_i payload s2 hp
        injection h with h1 h2
        subst h2
        exact le_trans (readBytesP_ok_length hp) (readBytesP_ok_length h9)
    · simp at h

theorem readBlockM_ok_length {c : Nat} {blk blk' : DataBlockM} {s s' : List Nat}
    (h : readBlockM c blk s = .ok blk' s') : s'.length ≤ s.length := by
  unfold readBlockM at h
  split at h
  · simp at h
  · simp at h
  · rename_i tail7 s1 h7
    split at h
    · split at h
      · simp at h
      · simp at h
      · rename_i ri s2 h8
        split at h
        · simp at h
        · simp at h
        · rename_i ck s3 h4
          exact le_trans (readChunkP_ok_length h)
            (le_trans (readBytesP_ok_length h4)
              (le_trans (readBytesP_ok_length h8) (readBytesP_ok_length h7)))
    · simp at h

theorem readTrailerP_ok_length {s s' : List Nat} {u : Unit} (h : readTrailerP s = .ok u s') :
    s'.length ≤ s.length := by
  unfold readTrailerP at h
  split at h
  · simp at h
  · simp at h
  · rename_i tail7 s1 h7
    split at h
    · split at h
      · simp at h
      · simp at h
      · rename_i ri s2 h8
        injection h with h1 h2
        subst h2
        exact le_trans (readBytesP_ok_length h8) (readBytesP_ok_length h7)
    · simp at h

theorem readTargetHeaderP_ok_length {s : List Nat} {name s' : List Nat}
    (h : readTargetHeaderP s = .ok name s') : s'.length ≤ s.length := by
  unfold readTargetHeaderP at h
  split at h
  · simp at h
  · simp at h
  · rename_i lenBytes s1 h4
    split at h
    · simp at h
    · simp at h
    · rename_i nm s2 hn
      split at h
      · simp at h
      · simp at h
      · rename_i b s3 hb
        split at h
        · injection h with h1 h2
          subst h2
          exact le_trans (le_of_lt (readByteP_ok_length hb))
            (le_trans (readBytesP_ok_length hn) (readBytesP_ok_length h4))
        · simp at h

theorem readFileHeaderP_ok_length {s : List Nat} {cs : Nat} {s' : List Nat}
    (h : readFileHeaderP s = .ok cs s') : s'.length ≤ s.length := by
  unfold readFileHeaderP at h
  split at h
  · simp at h
  · simp at h
  · rename_i magic s1 h8
    split at h
    · split at h
      · simp at h
      · simp at h
      · rename_i csBytes s2 hc
        injection h with h1 h2
        subst h2
        exact le_trans (readBytesP_ok_length hc) (readBytesP_ok_length h8)
    · simp at h

theorem fileBlockStep_next_length {c : Nat} {l : Int} {off : Nat} {s : List Nat}
    {blk : DataBlockM} {s' : List Nat} (h : fileBlockStep c l off s = .next blk s') :
    s'.length < s.length := by
  unfold fileBlockStep at h
  split at h
  · simp at h
  · simp at h
  · rename_i b s1 hb
    have hb1 : s1.length < s.length := readByteP_ok_length hb
    split at h
    · split at h
      · simp at h
      · simp at h
      · rename_i blk2 s2 hblk
        have h2 : s2.length ≤ s1.length := readBlockM_ok_length hblk
        split at h
        · simp at h
        · injection h with h1 h2'
          subst h2'
          omega
    · split at h
      · split at h
        · simp at h
        · simp at h
        · simp at h
      · simp at h

theorem fileBlockStep_halt_length {c : Nat} {l : Int} {off : Nat} {s : List Nat}
    {res : Except GoErr Unit} {s' : List Nat} (h : fileBlockStep c l off s = .halt res s') :
    s'.length ≤ s.length := by
  unfold fileBlockStep at h
  split at h
  · simp at h
  · injection h with h1 h2
    subst h2
    exact le_refl _
  · rename_i b s1 hb
    have hb1 : s1.length < s.length := readByteP_ok_length hb
    split at h
    · split at h
      · simp at h
      · injection h with h1 h2
        subst h2
        omega
      · rename_i blk2 s2 hblk
        have h2 : s2.length ≤ s1.length := readBlockM_ok_length hblk
        split at h
        · injection h with h1 h2'
          subst h2'
          omega
        · simp at h
    · split at h
      · split at h
        · simp at h
        · injection h with h1 h2
          subst h2
          omega
        · rename_i u s2 ht
          injection h with h1 h2
          subst h2
          have := readTrailerP_ok_length ht
          omega
      · injection h with h1 h2
        subst h2
        omega

theorem fileBlocksLoopF_out_length {fuel c : Nat} {l : Int} {off : Nat} {s : List Nat}
    {ts : List DataBlockM} {res : Except GoErr Unit} {s' : List Nat}
    (hfuel : s.length < fuel) (h : fileBlocksLoopF fuel c l off s = .out ts res s') :
    s'.length ≤ s.length := by
  induction fuel generalizing off s ts res s' with
  | zero => omega
  | succ fuel ih =>
    simp only [fileBlocksLoopF] at h
    split at h
    · simp at h
    · rename_i res1 s1 hstep
      cases h
      exact fileBlockStep_halt_length hstep
    · rename_i blk s1 hstep
      have h1 : s1.length < s.length := fileBlockStep_next_length hstep
      split at h
      · simp at h
      · rename_i ts2 res2 s2 hrec
        cases h
        have := ih (show s1.length < fuel by omega) hrec
        omega

theorem fileBlocksLoop_out_length {c : Nat} {l : Int} {off : Nat} {s : List Nat}
    {ts : List DataBlockM} {res : Except GoErr Unit} {s' : List Nat}
    (h : fileBlocksLoop c l off s = .out ts res s') : s'.length ≤ s.length :=
  fileBlocksLoopF_out_length (Nat.lt_succ_self _) h

theorem fileTargetDecompress_out_length {dec : List Nat → Nat → Option (List Nat)} {c : Nat}
    {base : List Char} {l : Int} {s : List Nat} {fs : FS} {res : Except GoErr Unit}
    {s' : List Nat} {fs' : FS} (h : fileTargetDecompress dec c base l s fs = .out res s' fs') :
    s'.length ≤ s.length := by
  unfold fileTargetDecompress at h
  split at h
  · simp at h
  · injection h with h1 h2
    subst h2
    exact le_refl _
  · rename_i name s1 hname
    have h1 : s1.length ≤ s.length := readTargetHeaderP_ok_length hname
    dsimp only at h
    split at h
    · injection h with h1' h2'
      subst h2'
      omega
    · split at h
      · simp at h
      · rename_i ts res2 s2 hloop
        injection h with h1' h2'
        subst h2'
        have := fileBlocksLoop_out_length hloop
        omega

theorem fileStreamLoopF_out_length {dec : List Nat → Nat → Option (List Nat)} {fuel c : Nat}
    {l : Int} {off : Nat} {s : List Nat} {res : Except GoErr Unit} {s' w : List Nat}
    (hfuel : s.length < fuel) (h : fileStreamLoopF dec fuel c l off s = .out res s' w) :
    s'.length ≤ s.length := by
  induction fuel generalizing off s res s' w with
  | zero => omega
  | succ fuel ih =>
    simp only [fileStreamLoopF] at h
    split at h
    · simp at h
    · rename_i res1 s1 hstep
      cases h
      exact fileBlockStep_halt_length hstep
    · rename_i blk s1 hstep
      have h1 : s1.length < s.length := fileBlockStep_next_length hstep
      split at h
      · cases h
        omega
      · split at h
        · simp at h
        · rename_i res2 s2 w2 hrec
          cases h
          have := ih (show s1.length < fuel by omega) hrec
          omega

theorem fileTargetDecompressStream_out_length {dec : List Nat → Nat → Option (List Nat)}
    {c : Nat} {l : Int} {s : List Nat} {res : Except GoErr Unit} {s' w : List Nat}
    (h : fileTargetDecompressStream dec c l s = .out res s' w) : s'.length ≤ s.length := by
  unfold fileTargetDecompressStream at h
  split at h
  · simp at h
  · injection h with h1 h2
    subst h2
    exact le_refl _
  · rename_i name s1 hname
    have h1 : s1.length ≤ s.length := readTargetHeaderP_ok_length hname
    have := fileStreamLoopF_out_length (Nat.lt_succ_self _) h
    omega

theorem archiveStep_next_length {dec : List Nat → Nat → Option (List Nat)} {c : Nat}
    {base : List Char} {l : Int} {s : List Nat} {fs : FS} {s' : List Nat} {fs' : FS}
    (h : archiveStep dec c base l s fs = .next s' fs') : s'.length < s.length := by
  unfold archiveStep at h
  split at h
  · simp at h
  · split at h
    · simp at h
    · simp at h
  · rename_i b s1 hb
    have hb1 : s1.length < s.length := readByteP_ok_length hb
    split at h
    · simp at h
    · split at h
      · split at h
        · simp at h
        · simp at h
        · simp at h
      · split at h
        · simp at h
        · split at h
          · split at h
            · simp at h
            · rename_i e s2 fs2 hfile
              split at h
              · simp at h
              · simp at h
            · rename_i u s2 fs2 hfile
              cases h
              have := fileTargetDecompress_out_length hfile
              omega
          · simp at h

theorem archiveStreamStep_next_length {dec : List Nat → Nat → Option (List Nat)} {c : Nat}
    {l : Int} {s s' w : List Nat} (h : archiveStreamStep dec c l s = .next s' w) :
    s'.length < s.length := by
  unfold archiveStreamStep at h
  split at h
  · simp at h
  · split at h
    · simp at h
    · simp at h
  · rename_i b s1 hb
    have hb1 : s1.length < s.length := readByteP_ok_length hb
    split at h
    · simp at h
    · split at h
      · split at h
        · simp at h
        · simp at h
        · simp at h
      · split at h
        · simp at h
        · split at h
          · split at h
            · simp at h
            · rename_i e s2 w2 hfile
              split at h
              · simp at h
              · simp at h
            · rename_i u s2 w2 hfile
              cases h
              have := fileTargetDecompressStream_out_length hfile
              omega
          · simp at h

theorem fileBlockStep_next_offset {c : Nat} {l : Int} {off : Nat} {s : List Nat}
    {blk : DataBlockM} {s' : List Nat} (h : fileBlockStep c l off s = .next blk s') :
    blk.DecompressedOffset = off := by
  unfold fileBlockStep at h
  split at h
  · simp at h
  · simp at h
  · rename_i b s1 hb
    split at h
    · split at h
      · simp at h
      · simp at h
      · rename_i blk2 s2 hblk
        split at h
        · simp at h
        · cases h
          rfl
    · split at h
      · split at h
        · simp at h
        · simp at h
        · simp at h
      · simp at h

theorem fileBlocksLoopF_chain {fuel c : Nat} {l : Int} {off : Nat} {s : List Nat}
    {ts : List DataBlockM} {res : Except GoErr Unit} {s' : List Nat}
    (hfuel : s.length < fuel) (h : fileBlocksLoopF fuel c l off s = .out ts res s') :
    ChainFrom off ts := by
  induction fuel generalizing off s ts res s' with
  | zero => omega
  | succ fuel ih =>
    simp only [fileBlocksLoopF] at h
    split at h
    · simp at h
    · cases h
      trivial
    · rename_i blk s1 hstep
      have h1 : s1.length < s.length := fileBlockStep_next_length hstep
      split at h
      · simp at h
      · rename_i ts2 res2 s2 hrec
        cases h
        exact ⟨fileBlockStep_next_offset hstep, ih (by omega) hrec⟩

theorem fileBlocksLoop_chain {c : Nat} {l : Int} {off : Nat} {s : List Nat}
    {ts : List DataBlockM} {res : Except GoErr Unit} {s' : List Nat}
    (h : fileBlocksLoop c l off s = .out ts res s') : ChainFrom off ts :=
  fileBlocksLoopF_chain (Nat.lt_succ_self _) h

theorem sumSizes_append (a b : List DataBlockM) : sumSizes (a ++ b) = sumSizes a + sumSizes b := by
  simp [sumSizes]

theorem chain_get_offset {ts : List DataBlockM} {o : Nat} (hc : ChainFrom o ts) :
    ∀ i (hi : i < ts.length), (ts.get ⟨i, hi⟩).DecompressedOffset = o + sumSizes (ts.take i) := by
  induction ts generalizing o with
  | nil => intro i hi; simp at hi
  | cons b ts ih =>
    intro i hi
    obtain ⟨hb, hrest⟩ := hc
    match i with
    | 0 => simpa [sumSizes] using hb
    | i + 1 =>
      have hlen : i < ts.length := by simpa using Nat.lt_of_succ_lt_succ hi
      have hih := ih hrest i hlen
      have hget : (b :: ts).get ⟨i + 1, hi⟩ = ts.get ⟨i, hlen⟩ := rfl
      have hsum : sumSizes (b :: ts.take i) = b.DecompressedSize + sumSizes (ts.take i) := by
        simp [sumSizes]
      rw [hget, hih, List.take_succ_cons, hsum]
      omega

theorem sumSizes_take_le (ts : List DataBlockM) {i j : Nat} (hij : i ≤ j) :
    sumSizes (ts.take i) ≤ sumSizes (ts.take j) :=
  calc sumSizes (ts.take i)
      ≤ sumSizes (ts.take i) + sumSizes ((ts.drop i).take (j - i)) := Nat.le_add_right _ _
    _ = sumSizes (ts.take i ++ (ts.drop i).take (j - i)) := (sumSizes_append _ _).symm
    _ = sumSizes (ts.take (i + (j - i))) := by rw [List.take_add]
    _ = sumSizes (ts.take j) := by rw [show i + (j - i) = j from by omega]

theorem sumSizes_take_lt (ts : List DataBlockM) {i j : Nat}
    (pos : ∀ b ∈ ts, 0 < b.DecompressedSize) (hi : i < ts.length) (hij : i < j) :
    sumSizes (ts.take i) < sumSizes (ts.take j) := by
  have hdrop : ts.drop i = ts.get ⟨i, hi⟩ :: ts.drop (i + 1) := List.drop_eq_getElem_cons hi
  have hk : j - i = (j - i - 1) + 1 := by omega
  have hextra : 0 < sumSizes ((ts.drop i).take (j - i)) := by
    rw [hdrop, hk, List.take_succ_cons]
    have hpos := pos (ts.get ⟨i, hi⟩) (List.get_mem ts i hi)
    simp only [sumSizes, List.map_cons, List.sum_cons]
    omega
  calc sumSizes (ts.take i)
      < sumSizes (ts.take i) + sumSizes ((ts.drop i).take (j - i)) := by omega
    _ = sumSizes (ts.take i ++ (ts.drop i).take (j - i)) := (sumSizes_append _ _).symm
    _ = sumSizes (ts.take (i + (j - i))) := by rw [List.take_add]
    _ = sumSizes (ts.take j) := by rw [show i + (j - i) = j from by omega]

example : readByteP [5, 6] = .ok 5 [6] := by decide
example : readBytesP 3 [1, 2] = .err .unexpectedEOF := by decide
example : strData "ab" = ['a', 'b'] := by decide
example : qlzSizeCompressed [69, 12, 5, 0, 0, 0, 128, 104, 101] = 12 := by decide
example : qlzSizeDecompressed [69, 12, 5, 0, 0, 0, 128, 104, 101] = 5 := by decide

example :
    readBlockM 16 (newDataBlock 16) helloBlockBytes =
      .ok { StarterTail := blockStarterTail
            RecoverInfo := List.replicate 8 0
            Checksum := [235, 2, 37, 13]
            CompressedChunk := [69, 12, 5, 0, 0, 0, 128, 104, 101, 108, 108, 111, 0, 0, 0, 0]
            CompressedSize := 12
            DecompressedSize := 5
            DecompressedOffset := 0 } [] := by decide

example : fileBlocksLoop 16 0 0 twoBlockBody = .out twoBlocksParsed (.ok ()) [] := by decide

/-- Claim C2: the decoder stamps block 0 with destination offset 0 and
every block `i` with the sum of the declared decompressed sizes of
blocks `0..i-1` (equivalently `offset(i) = offset(i-1) +
decompressedSize(i-1)`), so offsets are non-decreasing, and strictly
increasing when every block has positive decompressed size. -/
theorem block_offsets_prefix_sums (c : Nat) (l : Int) (s : List Nat) (ts : List DataBlockM)
    (res : Except GoErr Unit) (s' : List Nat) (h : fileBlocksLoop c l 0 s = .out ts res s') :
    (∀ i (hi : i < ts.length), (ts.get ⟨i, hi⟩).DecompressedOffset = sumSizes (ts.take i)) ∧
    (∀ i (hi1 : i + 1 < ts.length),
      (ts.get ⟨i + 1, hi1⟩).DecompressedOffset =
        (ts.get ⟨i, Nat.lt_of_succ_lt hi1⟩).DecompressedOffset +
          (ts.get ⟨i, Nat.lt_of_succ_lt hi1⟩).DecompressedSize) ∧
    (∀ i j (hi : i < ts.length) (hj : j < ts.length), i ≤ j →
      (ts.get ⟨i, hi⟩).DecompressedOffset ≤ (ts.get ⟨j, hj⟩).DecompressedOffset) ∧
    ((∀ b ∈ ts, 0 < b.DecompressedSize) → ∀ i j (hi : i < ts.length) (hj : j < ts.length),
      i < j → (ts.get ⟨i, hi⟩).DecompressedOffset < (ts.get ⟨j, hj⟩).DecompressedOffset) := by
  have hchain := fileBlocksLoop_chain h
  have hoff : ∀ i (hi : i < ts.length),
      (ts.get ⟨i, hi⟩).DecompressedOffset = sumSizes (ts.take i) := by
    intro i hi
    have := chain_get_offset hchain i hi
    simpa using this
  refine ⟨hoff, ?_, ?_, ?_⟩
  · intro i hi1
    have hi : i < ts.length := Nat.lt_of_succ_lt hi1
    have h1 := hoff i hi
    have h2 := hoff (i + 1) hi1
    have htake : ts.take (i + 1) = ts.take i ++ [ts.get ⟨i, hi⟩] := by
      rw [List.take_succ, List.getElem?_eq_getElem hi]
      simp
    rw [h1, h2, htake, sumSizes_append]
    simp [sumSizes]
  · intro i j hi hj hij
    rw [hoff i hi, hoff j hj]
    exact sumSizes_take_le ts hij
  · intro hpos i j hi hj hij
    rw [hoff i hi, hoff j hj]
    exact sumSizes_take_lt ts hpos hi hij

/-- Witness for **C2** on the documented two-block example body: block 1
is stamped with offset `sumSizes` of the first block (that is, 5). -/
theorem block_offsets_prefix_sums_witness :
    (twoBlocksParsed.get ⟨1, by decide⟩).DecompressedOffset = sumSizes (twoBlocksParsed.take 1) :=
  (block_offsets_prefix_sums 16 0 twoBlockBody twoBlocksParsed (.ok ()) []
    (by decide)).1 1 (by decide)

theorem chain_mem_le {ts : List DataBlockM} {o : Nat} (hc : ChainFrom o ts) :
    ∀ x ∈ ts, o ≤ x.DecompressedOffset := by
  induction ts generalizing o with
  | nil => intro x hx; simp at hx
  | cons b ts ih =>
    obtain ⟨hb, hrest⟩ := hc
    intro x hx
    rcases List.mem_cons.mp hx with rfl | hx'
    · omega
    · have := ih hrest x hx'
      omega

theorem chain_pairwise {ts : List DataBlockM} {o : Nat} (hc : ChainFrom o ts) :
    ts.Pairwise Disj := by
  induction ts generalizing o with
  | nil => exact List.Pairwise.nil
  | cons b ts ih =>
    obtain ⟨hb, hrest⟩ := hc
    refine List.Pairwise.cons ?_ (ih hrest)
    intro y hy
    have := chain_mem_le hrest y hy
    unfold Disj
    omega

theorem pairwise_mem_cases {α : Type} {R : α → α → Prop} :
    ∀ {ts : List α}, ts.Pairwise R → ∀ x ∈ ts, ∀ y ∈ ts, x = y ∨ R x y ∨ R y x := by
  intro ts hpw
  induction hpw with
  | nil => intro x hx; simp at hx
  | cons ha hts ih =>
    intro x hx y hy
    rcases List.mem_cons.mp hx with rfl | hx' <;> rcases List.mem_cons.mp hy with h | hy'
    · left; exact h.symm
    · right; left; exact ha y hy'
    · subst h; right; right; exact ha x hx'
    · exact ih x hx' y hy'

theorem writeAtF_comm {o1 o2 : Nat} {bs1 bs2 : List Nat} (f : FileC)
    (hd : o1 + bs1.length ≤ o2 ∨ o2 + bs2.length ≤ o1) :
    writeAtF (writeAtF f o1 bs1) o2 bs2 = writeAtF (writeAtF f o2 bs2) o1 bs1 := by
  funext i
  simp only [writeAtF]
  split_ifs <;> first | rfl | omega

theorem runTask_comm {dec : List Nat → Nat → Option (List Nat)}
    (hw : ∀ ch n bs, dec ch n = some bs → bs.length = n)
    {x y : DataBlockM} (hxy : x = y ∨ Disj x y ∨ Disj y x) (f : FileC) :
    runTask dec (runTask dec f x) y = runTask dec (runTask dec f y) x := by
  rcases hxy with rfl | hd | hd
  · rfl
  · cases hx : dec x.CompressedChunk x.DecompressedSize with
    | none => cases hy : dec y.CompressedChunk y.DecompressedSize with
      | none => simp only [runTask, hx, hy]
      | some bsy => simp only [runTask, hx, hy]
    | some bsx => cases hy : dec y.CompressedChunk y.DecompressedSize with
      | none => simp only [runTask, hx, hy]
      | some bsy =>
        simp only [runTask, hx, hy]
        refine writeAtF_comm f (Or.inl ?_)
        have := hw _ _ _ hx
        unfold Disj at hd
        omega
  · cases hx : dec x.CompressedChunk x.DecompressedSize with
    | none => cases hy : dec y.CompressedChunk y.DecompressedSize with
      | none => simp only [runTask, hx, hy]
      | some bsy => simp only [runTask, hx, hy]
    | some bsx => cases hy : dec y.CompressedChunk y.DecompressedSize with
      | none => simp only [runTask, hx, hy]
      | some bsy =>
        simp only [runTask, hx, hy]
        refine writeAtF_comm f (Or.inr ?_)
        have := hw _ _ _ hy
        unfold Disj at hd
        omega

theorem foldl_eq_of_perm_of_comm {α β : Type} {f : β → α → β} {l₁ l₂ : List α}
    (hp : List.Perm l₁ l₂)
    (hcomm : ∀ x ∈ l₁, ∀ y ∈ l₁, ∀ z : β, f (f z x) y = f (f z y) x) :
    ∀ z : β, l₁.foldl f z = l₂.foldl f z := by
  induction hp with
  | nil => intro z; rfl
  | cons a h ih =>
    intro z
    simp only [List.foldl_cons]
    exact ih (fun x hx y hy => hcomm x (List.mem_cons_of_mem a hx) y (List.mem_cons_of_mem a hy))
      (f z a)
  | swap a b l =>
    intro z
    simp only [List.foldl_cons]
    rw [hcomm b (by simp) a (by simp) z]
  | trans h1 h2 ih1 ih2 =>
    intro z
    rw [ih1 hcomm z]
    exact ih2 (fun x hx y hy => hcomm x (h1.mem_iff.mpr hx) y (h1.mem_iff.mpr hy)) z

/-- Claim C1: the tasks submitted by `FileTarget.Decompress` for one file
carry sequentially precomputed absolute destination offsets whose byte
ranges never overlap, so executing them in any completion order writes
the same bytes to the destination file as executing them in submission
(sequential) order — for every decompressor whose successful output
fills exactly the buffer of the block's declared decompressed size. -/
theorem decode_order_independent (c : Nat) (l : Int) (s : List Nat) (ts : List DataBlockM)
    (res : Except GoErr Unit) (s' : List Nat) (h : fileBlocksLoop c l 0 s = .out ts res s')
    (dec : List Nat → Nat → Option (List Nat))
    (hw : ∀ ch n bs, dec ch n = some bs → bs.length = n)
    (ts' : List DataBlockM) (hp : List.Perm ts ts') (f : FileC) :
    runTasks dec f ts' = runTasks dec f ts := by
  have hchain := fileBlocksLoop_chain h
  have hpw : ts.Pairwise Disj := chain_pairwise hchain
  have hcomm : ∀ x ∈ ts, ∀ y ∈ ts, ∀ z : FileC,
      runTask dec (runTask dec z x) y = runTask dec (runTask dec z y) x := by
    intro x hx y hy z
    exact runTask_comm hw (pairwise_mem_cases hpw x hx y hy) z
  exact (foldl_eq_of_perm_of_comm hp hcomm f).symm

/-- Witness for **C1**: running the two tasks of the documented
two-block example in reversed completion order produces the same file
content as the sequential order. -/
theorem decode_order_independent_witness :
    runTasks decZeros emptyFile twoBlocksParsed.reverse =
      runTasks decZeros emptyFile twoBlocksParsed :=
  decode_order_independent 16 0 twoBlockBody twoBlocksParsed (.ok ()) [] (by decide)
    decZeros
    (by intro ch n bs hb
        unfold decZeros at hb
        cases hb
        simp)
    twoBlocksParsed.reverse (by decide) emptyFile

theorem pdLead_isPrefixOf_partialMsg (l : Int) : pdLead.isPrefixOf (partialMsg l) = true := by
  rw [List.isPrefixOf_iff_prefix]
  exact ⟨' ' :: (toString l).data, rfl⟩

theorem isPrefixOf_false_of_head_ne {a b : Char} (h : a ≠ b) (xs ys : List Char) :
    (a :: xs).isPrefixOf (b :: ys) = false := by
  simp [List.isPrefixOf, h]

theorem pdLead_not_prefix_cons {c : Char} (h : c ≠ 'p') (xs : List Char) :
    pdLead.isPrefixOf (c :: xs) = false := by
  have hpd : pdLead = 'p' :: strData "artial decompress to limited size" := by decide
  rw [hpd]
  exact isPrefixOf_false_of_head_ne (fun hh => h hh.symm) _ _

theorem fileBlockStep_halt_positive_limit {c : Nat} {l : Int} {off : Nat} {s : List Nat}
    {e : GoErr} {s2 : List Nat} (h : fileBlockStep c l off s = .halt (.error e) s2)
    (hpre : pdLead.isPrefixOf (errMsg e) = true) : 0 < l := by
  unfold fileBlockStep at h
  split at h
  · simp at h
  · cases h
    rw [show strData "read type " ++ [Char.ofNat 0] ++ strData " failed: " ++ errMsg _ =
          'r' :: (strData "ead type " ++ [Char.ofNat 0] ++ strData " failed: " ++ errMsg _) from
        by rw [show strData "read type " = 'r' :: strData "ead type " from by decide]; rfl] at hpre
    rw [show errMsg (GoErr.msg ('r' :: (strData "ead type " ++ [Char.ofNat 0] ++
          strData " failed: " ++ errMsg _))) =
        'r' :: (strData "ead type " ++ [Char.ofNat 0] ++ strData " failed: " ++ errMsg _) from
      rfl] at hpre
    rw [pdLead_not_prefix_cons (by decide) _] at hpre
    cases hpre
  · rename_i b s1 hb
    split at h
    · split at h
      · simp at h
      · cases h
        rename_i e1 hblk
        rw [show errMsg (GoErr.msg (strData "decompress block failed: " ++ errMsg e1)) =
              strData "decompress block failed: " ++ errMsg e1 from rfl,
            show strData "decompress block failed: " ++ errMsg e1 =
              'd' :: (strData "ecompress block failed: " ++ errMsg e1) from
            by rw [show strData "decompress block failed: " =
                     'd' :: strData "ecompress block failed: " from by decide]; rfl,
            pdLead_not_prefix_cons (by decide) _] at hpre
        cases hpre
      · rename_i blk s2' hblk
        split at h
        · rename_i hlim
          exact hlim.1
        · simp at h
    · split at h
      · split at h
        · simp at h
        · cases h
          rename_i e1 ht
          rw [show errMsg (GoErr.msg (strData "read trailer failed: " ++ errMsg e1)) =
                strData "read trailer failed: " ++ errMsg e1 from rfl,
              show strData "read trailer failed: " ++ errMsg e1 =
                'r' :: (strData "ead trailer failed: " ++ errMsg e1) from
              by rw [show strData "read trailer failed: " =
                       'r' :: strData "ead trailer failed: " from by decide]; rfl,
              pdLead_not_prefix_cons (by decide) _] at hpre
          cases hpre
        · cases h
      · cases h
        rw [show errMsg (GoErr.msg (strData "invalid block header, 'N' or 'E' not found, get: [" ++
              (toString b).data ++ [']'])) =
            strData "invalid block header, 'N' or 'E' not found, get: [" ++
              (toString b).data ++ [']'] from rfl,
            show strData "invalid block header, 'N' or 'E' not found, get: [" ++
              (toString b).data ++ [']'] =
              'i' :: (strData "nvalid block header, 'N' or 'E' not found, get: [" ++
                (toString b).data ++ [']']) from
            by rw [show strData "invalid block header, 'N' or 'E' not found, get: [" =
                     'i' :: strData "nvalid block header, 'N' or 'E' not found, get: [" from
                   by decide]; rfl,
            pdLead_not_prefix_cons (by decide) _] at hpre
        cases hpre

theorem fileBlocksLoopF_no_partial_err {fuel c : Nat} {l : Int} {off : Nat} {s : List Nat}
    {ts : List DataBlockM} {res : Except GoErr Unit} {s' : List Nat}
    (hfuel : s.length < fuel) (h : fileBlocksLoopF fuel c l off s = .out ts res s')
    (hl : l ≤ 0) : ∀ e, res = .error e → pdLead.isPrefixOf (errMsg e) = false := by
  induction fuel generalizing off s ts res s' with
  | zero => omega
  | succ fuel ih =>
    simp only [fileBlocksLoopF] at h
    split at h
    · simp at h
    · rename_i res1 s1 hstep
      cases h
      intro e hres
      subst hres
      by_contra hc
      have : pdLead.isPrefixOf (errMsg e) = true := by
        cases hb : pdLead.isPrefixOf (errMsg e)
        · exact absurd hb hc
        · rfl
      have := fileBlockStep_halt_positive_limit hstep this
      omega
    · rename_i blk s1 hstep
      have h1 : s1.length < s.length := fileBlockStep_next_length hstep
      split at h
      · simp at h
      · rename_i ts2 res2 s2 hrec
        cases h
        exact ih (show s1.length < fuel by omega) hrec

theorem fileStreamLoopF_no_partial_err {dec : List Nat → Nat → Option (List Nat)} {fuel c : Nat}
    {l : Int} {off : Nat} {s : List Nat} {res : Except GoErr Unit} {s' w : List Nat}
    (hfuel : s.length < fuel) (h : fileStreamLoopF dec fuel c l off s = .out res s' w)
    (hl : l ≤ 0) : ∀ e, res = .error e → pdLead.isPrefixOf (errMsg e) = false := by
  induction fuel generalizing off s res s' w with
  | zero => omega
  | succ fuel ih =>
    simp only [fileStreamLoopF] at h
    split at h
    · simp at h
    · rename_i res1 s1 hstep
      cases h
      intro e hres
      subst hres
      by_contra hc
      have hb : pdLead.isPrefixOf (errMsg e) = true := by
        cases hb : pdLead.isPrefixOf (errMsg e)
        · exact absurd hb hc
        · rfl
      have := fileBlockStep_halt_positive_limit hstep hb
      omega
    · rename_i blk s1 hstep
      have h1 : s1.length < s.length := fileBlockStep_next_length hstep
      split at h
      · cases h
        intro e hres
        cases hres
        rw [show errMsg (GoErr.msg (strData "decompress chunk failed: decompress error")) =
              strData "decompress chunk failed: decompress error" from rfl,
            show strData "decompress chunk failed: decompress error" =
              'd' :: strData "ecompress chunk failed: decompress error" from by decide]
        exact pdLead_not_prefix_cons (by decide) _
      · split at h
        · simp at h
        · rename_i res2 s2 w2 hrec
          cases h
          exact ih (show s1.length < fuel by omega) hrec

/-- Claim C3: in both `FileTarget.Decompress` and
`FileTarget.DecompressStream`, when `limitSize > 0` a parsed block
triggers the partial-limit abort exactly when the running offset plus
its declared decompressed size strictly exceeds `limitSize` (equality
continues decoding and the block is accepted), and when
`limitSize <= 0` neither loop can ever produce the partial-limit error. -/
theorem partial_limit_boundary (c : Nat) (l : Int) (off : Nat) (s s1 s2 : List Nat)
    (blk : DataBlockM) (hb : readByteP s = .ok typeNew s1)
    (hblk : readBlockM c (newDataBlock c) s1 = .ok blk s2) :
    ((fileBlockStep c l off s = .halt (.error (.msg (partialMsg l))) s2) ↔
      (0 < l ∧ l < (off : Int) + (blk.DecompressedSize : Int))) ∧
    (¬(0 < l ∧ l < (off : Int) + (blk.DecompressedSize : Int)) →
      fileBlockStep c l off s = .next { blk with DecompressedOffset := off } s2) ∧
    (l ≤ 0 → ∀ off0 s0 ts res s', fileBlocksLoop c l off0 s0 = .out ts res s' →
      ∀ e, res = .error e → pdLead.isPrefixOf (errMsg e) = false) ∧
    (l ≤ 0 → ∀ dec off0 s0 res s' w, fileStreamLoop dec c l off0 s0 = .out res s' w →
      ∀ e, res = .error e → pdLead.isPrefixOf (errMsg e) = false) := by
  have hstep : fileBlockStep c l off s =
      if 0 < l ∧ l < (off : Int) + (blk.DecompressedSize : Int) then
        .halt (.error (.msg (partialMsg l))) s2
      else .next { blk with DecompressedOffset := off } s2 := by
    simp only [fileBlockStep, hb, hblk, if_true]
  refine ⟨⟨?_, ?_⟩, ?_, ?_, ?_⟩
  · intro hhalt
    by_cases hcond : 0 < l ∧ l < (off : Int) + (blk.DecompressedSize : Int)
    · exact hcond
    · rw [hstep, if_neg hcond] at hhalt
      cases hhalt
  · intro hcond
    rw [hstep, if_pos hcond]
  · intro hnc
    rw [hstep, if_neg hnc]
  · intro hl off0 s0 ts res s' hloop e hres
    exact fileBlocksLoopF_no_partial_err (Nat.lt_succ_self _) hloop hl e hres
  · intro hl dec off0 s0 res s' w hloop e hres
    exact fileStreamLoopF_no_partial_err (Nat.lt_succ_self _) hloop hl e hres

/-- Witness for **C3** at the exact-equality boundary: with limit 5 and
running offset 0, the 5-byte `"hello"` block does not abort — the step
accepts the block and decoding continues. -/
theorem partial_limit_boundary_witness :
    fileBlockStep 16 5 0 twoBlockBody =
      .next { helloParsedBlock with DecompressedOffset := 0 }
        (typeNew :: thereBlockBytes ++ typeEnd :: trailerBytes) :=
  (partial_limit_boundary 16 5 0 twoBlockBody
      (helloBlockBytes ++ (typeNew :: thereBlockBytes ++ typeEnd :: trailerBytes))
      (typeNew :: thereBlockBytes ++ typeEnd :: trailerBytes) helloParsedBlock
      (by decide) (by decide)).2.1 (by decide)

/-- Claim C4: when a file target's decode aborts with the partial-limit
error, `ArchiveFile.Decompress` (and `DecompressStream`) immediately
returns `isPartial = true` with a nil error, leaving the stream exactly
where the file decode stopped — no further targets are read. -/
theorem partial_limit_surfaced_as_flag (dec : List Nat → Nat → Option (List Nat)) (c : Nat)
    (base : List Char) (l : Int) :
    (∀ s s1 s2 fs fs2, readByteP s = .ok typeFile s1 →
      fileTargetDecompress dec c base l s1 fs = .out (.error (.msg (partialMsg l))) s2 fs2 →
      archiveLoop dec c base l s fs = .out (.ok true) s2 fs2) ∧
    (∀ s s1 s2 w, readByteP s = .ok typeFile s1 →
      fileTargetDecompressStream dec c l s1 = .out (.error (.msg (partialMsg l))) s2 w →
      archiveStreamLoop dec c l s = .out (.ok true) s2 w) := by
  constructor
  · intro s s1 s2 fs fs2 hb hfile
    have hstep : archiveStep dec c base l s fs = .halt (.ok true) s2 fs2 := by
      simp only [archiveStep, hb, hfile]
      rw [if_neg (show ¬((typeFile : Nat) = 0) from by decide),
          if_neg (show ¬(typeFile = typeDown) from by decide),
          if_neg (show ¬(typeFile = typeUp) from by decide),
          if_true,
          if_pos (show pdLead.isPrefixOf (errMsg (GoErr.msg (partialMsg l))) = true from
            pdLead_isPrefixOf_partialMsg l)]
    unfold archiveLoop
    simp only [archiveLoopF, hstep]
  · intro s s1 s2 w hb hfile
    have hstep : archiveStreamStep dec c l s = .halt (.ok true) s2 w := by
      simp only [archiveStreamStep, hb, hfile]
      rw [if_neg (show ¬((typeFile : Nat) = 0) from by decide),
          if_neg (show ¬(typeFile = typeDown) from by decide),
          if_neg (show ¬(typeFile = typeUp) from by decide),
          if_true,
          if_pos (show pdLead.isPrefixOf (errMsg (GoErr.msg (partialMsg l))) = true from
            pdLead_isPrefixOf_partialMsg l)]
    unfold archiveStreamLoop
    simp only [archiveStreamLoopF, hstep]

/-- Witness for **C4**: with limit 3 the first (5-byte) block of the
`"c.txt"` file aborts; the archive target loop reports
`isPartial = true` with no error and does not consume the rest of the
stream. -/
theorem partial_limit_surfaced_as_flag_witness :
    archiveLoop decZeros 16 (strData "out") 3 (typeFile :: fileBodyCTxt) emptyFS =
      .out (.ok true) (typeNew :: thereBlockBytes ++ typeEnd :: trailerBytes)
        (fsCreateFile emptyFS (joinPath (strData "out") (strData "c.txt"))
          (runTasks decZeros emptyFile [])) :=
  (partial_limit_surfaced_as_flag decZeros 16 (strData "out") 3).1
    (typeFile :: fileBodyCTxt) fileBodyCTxt
    (typeNew :: thereBlockBytes ++ typeEnd :: trailerBytes) emptyFS
    (fsCreateFile emptyFS (joinPath (strData "out") (strData "c.txt"))
      (runTasks decZeros emptyFile []))
    rfl rfl

/-- Claim C5: if the destination path (base directory joined with the file
target's name) already exists when `FileTarget.Decompress` begins, the
decode fails with the already-exists error and the filesystem — in
particular every pre-existing file's content — is left completely
unchanged; when the path does not exist, the destination file is
created and receives exactly the submitted tasks' writes. -/
theorem no_overwrite_existing_destination (dec : List Nat → Nat → Option (List Nat)) (c : Nat)
    (base : List Char) (l : Int) (s s1 : List Nat) (name : List Nat) (fs : FS)
    (hname : readTargetHeaderP s = .ok name s1) :
    (statExists fs (joinPath base (name.map Char.ofNat)) = true →
      fileTargetDecompress dec c base l s fs =
        .out (.error (.msg (strData "file " ++ joinPath base (name.map Char.ofNat) ++
          strData " already exists"))) s1 fs) ∧
    (statExists fs (joinPath base (name.map Char.ofNat)) = false →
      ∀ ts res s2, fileBlocksLoop c l 0 s1 = .out ts res s2 →
        fileTargetDecompress dec c base l s fs =
          .out res s2 (fsCreateFile fs (joinPath base (name.map Char.ofNat))
            (runTasks dec emptyFile ts))) := by
  constructor
  · intro hex
    simp only [fileTargetDecompress, hname]
    rw [if_pos hex]
  · intro hnex ts res s2 hloop
    simp only [fileTargetDecompress, hname, hloop]
    rw [if_neg (show ¬(statExists fs (joinPath base (name.map Char.ofNat)) = true) from
      by rw [hnex]; exact Bool.false_ne_true)]

/-- Witness for **C5**: decoding the `"c.txt"` record into a filesystem
already holding `out/c.txt` fails with the already-exists error and
returns the filesystem unchanged. -/
theorem no_overwrite_existing_destination_witness :
    fileTargetDecompress decZeros 16 (strData "out") 0 fileBodyCTxt fsWithCTxt =
      .out (.error (.msg (strData "file " ++
          joinPath (strData "out") ([99, 46, 116, 120, 116].map Char.ofNat) ++
          strData " already exists"))) twoBlockBody fsWithCTxt :=
  (no_overwrite_existing_destination decZeros 16 (strData "out") 0 fileBodyCTxt twoBlockBody
    [99, 46, 116, 120, 116] fsWithCTxt (by decide)).1 (by decide)

/-- Claim C6: an input stream whose first 8 bytes differ from
`"qpress10"` makes `ArchiveFile.Decompress` fail immediately with a
format error, reading no targets and leaving the filesystem (hence the
set of output files) unchanged; when the magic matches, the next
8 bytes are decoded as the little-endian chunk size and handed to the
target loop for the session. -/
theorem magic_check_and_chunk_size (dec : List Nat → Nat → Option (List Nat)) (base : List Char)
    (l : Int) (s : List Nat) (fs : FS) :
    (s.take 8 ≠ qpressMagic →
      ∃ m, archiveDecompress dec base l s fs = .out (.error (.msg m)) s fs) ∧
    (∀ cb r, cb.length = 8 → readFileHeaderP (qpressMagic ++ (cb ++ r)) = .ok (leNum cb) r) ∧
    (∀ cb r, cb.length = 8 → fs.dirs.contains (strData "tmp") = true →
      archiveDecompress dec base l (qpressMagic ++ (cb ++ r)) fs =
        archiveLoop dec (leNum cb) base l r fs) := by
  have hok : ∀ cb r : List Nat, cb.length = 8 →
      readFileHeaderP (qpressMagic ++ (cb ++ r)) = .ok (leNum cb) r := by
    intro cb r hcb
    have h1 : readBytesP 8 (qpressMagic ++ (cb ++ r)) = .ok qpressMagic (cb ++ r) := by
      unfold readBytesP
      rw [if_neg (by simp [qpressMagic]), if_neg (by simp [qpressMagic])]
      rw [show (8 : Nat) = qpressMagic.length from rfl, List.take_left, List.drop_left]
    have h2 : readBytesP 8 (cb ++ r) = .ok cb r := by
      unfold readBytesP
      rw [if_neg (by
            rintro ⟨hh, -⟩
            have := congrArg List.length hh
            rw [List.length_append] at this
            simp only [List.length_nil] at this
            omega),
          if_neg (by simp only [List.length_append, not_lt]; omega)]
      rw [show (8 : Nat) = cb.length from hcb.symm, List.take_left, List.drop_left]
    simp only [readFileHeaderP, h1, h2, if_true]
  refine ⟨?_, hok, ?_⟩
  · intro hmag
    have hhdr : ∃ m0, readFileHeaderP s = .err (.msg m0) := by
      unfold readFileHeaderP readBytesP
      by_cases h0 : s = [] ∧ 0 < 8
      · rw [if_pos h0]
        exact ⟨_, rfl⟩
      · rw [if_neg h0]
        by_cases h1 : s.length < 8
        · rw [if_pos h1]
          exact ⟨_, rfl⟩
        · rw [if_neg h1]
          dsimp only
          rw [if_neg hmag]
          exact ⟨_, rfl⟩
    obtain ⟨m0, hm⟩ := hhdr
    refine ⟨strData "read file header failed: " ++ errMsg (.msg m0), ?_⟩
    simp only [archiveDecompress, hm]
  · intro cb r hcb htmp
    simp only [archiveDecompress, hok cb r hcb, osMkdirTmp]
    rw [if_pos htmp]
    simp only [isExistErr, if_true]

/-- Witness for **C6**: a three-byte stream (first 8 bytes differ from
the magic) fails with a format error and leaves the filesystem
untouched. -/
theorem magic_check_and_chunk_size_witness :
    ∃ m, archiveDecompress decZeros [] 0 [0, 1, 2] emptyFS =
      .out (.error (.msg m)) [0, 1, 2] emptyFS :=
  (magic_check_and_chunk_size decZeros [] 0 [0, 1, 2] emptyFS).1 (by decide)

/-- Claim C7: the target loop of `ArchiveFile.Decompress` terminates
cleanly — `isPartial = false` and nil error — exactly when the
type-byte read hits end-of-stream or the type byte is zero; any
unrecognized type byte is an error instead. -/
theorem clean_termination_cases (dec : List Nat → Nat → Option (List Nat)) (c : Nat)
    (base : List Char) (l : Int) (fs : FS) :
    (archiveLoop dec c base l [] fs = .out (.ok false) [] fs) ∧
    (∀ rest, archiveLoop dec c base l (0 :: rest) fs = .out (.ok false) rest fs) ∧
    (∀ b rest, b ∉ ([0, typeDown, typeUp, typeFile] : List Nat) →
      archiveLoop dec c base l (b :: rest) fs =
        .out (.error (.msg (strData "unknown type: " ++ [Char.ofNat b]))) rest fs) ∧
    (∀ s s' fs', archiveStep dec c base l s fs = .halt (.ok false) s' fs' →
      s = [] ∨ ∃ rest, s = 0 :: rest) := by
  refine ⟨rfl, fun rest => rfl, ?_, ?_⟩
  · intro b rest hb
    simp only [List.mem_cons, List.mem_singleton, typeDown, typeUp, typeFile, not_or] at hb
    obtain ⟨hb0, hbD, hbU, hbF, -⟩ := hb
    have hstep : archiveStep dec c base l (b :: rest) fs =
        .halt (.error (.msg (strData "unknown type: " ++ [Char.ofNat b]))) rest fs := by
      simp only [archiveStep, readByteP]
      rw [if_neg hb0, if_neg (show ¬(b = typeDown) from hbD),
          if_neg (show ¬(b = typeUp) from hbU), if_neg (show ¬(b = typeFile) from hbF)]
    unfold archiveLoop
    simp only [archiveLoopF, hstep]
  · intro s s' fs' h
    match s with
    | [] => exact Or.inl rfl
    | b :: rest =>
      by_cases hb0 : b = 0
      · exact Or.inr ⟨rest, by rw [hb0]⟩
      · exfalso
        simp only [archiveStep, readByteP] at h
        rw [if_neg hb0] at h
        split at h
        · split at h
          · simp at h
          · simp at h
          · simp at h
        · split at h
          · simp at h
          · split at h
            · split at h
              · simp at h
              · split at h
                · simp at h
                · simp at h
              · simp at h
            · simp at h

/-- Witness for **C7**: the unrecognized type byte 90 (`'Z'`) makes the
target loop fail with the unknown-type error rather than terminate
cleanly. -/
theorem clean_termination_cases_witness :
    archiveLoop decZeros 16 [] 0 [90] emptyFS =
      .out (.error (.msg (strData "unknown type: " ++ [Char.ofNat 90]))) [] emptyFS :=
  (clean_termination_cases decZeros 16 [] 0 emptyFS).2.2.1 90 [] (by decide)

theorem readBytesP_ne_panic {n : Nat} {s : List Nat} : readBytesP n s ≠ .panicked := by
  unfold readBytesP
  split
  · intro h; cases h
  · split
    · intro h; cases h
    · intro h; cases h

theorem readBytesP_len_eq {n : Nat} {s v s' : List Nat} (h : readBytesP n s = .ok v s') :
    s'.length + n = s.length := by
  unfold readBytesP at h
  split at h
  · simp at h
  · split at h
    · simp at h
    · rename_i h1 h2
      injection h with hv hs
      subst hs
      simp only [List.length_drop]
      omega

theorem readBytesP_of_le {n : Nat} {s : List Nat} (h : n ≤ s.length) :
    readBytesP n s = .ok (s.take n) (s.drop n) := by
  unfold readBytesP
  rw [if_neg, if_neg]
  · omega
  · rintro ⟨h1, h2⟩
    subst h1
    simp at h
    omega

theorem readBytesP_exact {n : Nat} {p : List Nat} (q : List Nat) (hp : p.length = n) :
    readBytesP n (p ++ q) = .ok p q := by
  rw [readBytesP_of_le (by simp [hp]), ← hp, List.take_left, List.drop_left]

theorem readBytesP_short {n : Nat} {s : List Nat} (h : s.length < n) :
    ∃ e, readBytesP n s = .err e := by
  unfold readBytesP
  by_cases h0 : s = [] ∧ 0 < n
  · rw [if_pos h0]
    exact ⟨.eof, rfl⟩
  · rw [if_neg h0, if_pos h]
    exact ⟨.unexpectedEOF, rfl⟩

/-- Claim C8: `DataBlock.ReadBlock` reads, in order: exactly 7 starter-tail
bytes that must equal `"EWBNEWB"` (format error on mismatch), exactly
8 recovery-information bytes (stored uninterpreted), exactly 4 checksum
bytes (stored unverified), exactly the 9-byte codec mini-header giving
the declared compressed total size and decompressed size, and then
`compressedTotalSize - 9` payload bytes; a short read at any of these
steps makes the parse fail with an error rather than succeed. -/
theorem read_block_structure (c : Nat) (ri ck hdr rest : List Nat)
    (hri : ri.length = 8) (hck : ck.length = 4) (hhdr : hdr.length = 9) :
    (9 ≤ qlzSizeCompressed hdr → qlzSizeCompressed hdr ≤ c + 400 →
      qlzSizeCompressed hdr - 9 ≤ rest.length →
      readBlockM c (newDataBlock c) (blockStarterTail ++ (ri ++ (ck ++ (hdr ++ rest)))) =
        .ok { StarterTail := blockStarterTail
              RecoverInfo := ri
              Checksum := ck
              CompressedChunk := (hdr ++ rest.take (qlzSizeCompressed hdr - 9) ++
                (List.replicate c 0).drop (qlzSizeCompressed hdr)).take c
              CompressedSize := qlzSizeCompressed hdr
              DecompressedSize := qlzSizeDecompressed hdr
              DecompressedOffset := 0 }
          (rest.drop (qlzSizeCompressed hdr - 9))) ∧
    (∀ t7 s0, t7.length = 7 → t7 ≠ blockStarterTail →
      readBlockM c (newDataBlock c) (t7 ++ s0) =
        .err (.msg (strData "invalid block starter tail: " ++ t7.map Char.ofNat))) ∧
    (∀ s0 : List Nat, s0.length < 28 → ∃ e, readBlockM c (newDataBlock c) s0 = .err e) ∧
    (9 ≤ qlzSizeCompressed hdr → qlzSizeCompressed hdr ≤ c + 400 →
      rest.length < qlzSizeCompressed hdr - 9 →
      ∃ e, readBlockM c (newDataBlock c)
        (blockStarterTail ++ (ri ++ (ck ++ (hdr ++ rest)))) = .err e) := by
  refine ⟨?_, ?_, ?_, ?_⟩
  · intro h9 hcap hlen
    simp only [readBlockM, readChunkP, newDataBlock,
      readBytesP_exact (ri ++ (ck ++ (hdr ++ rest))) (show blockStarterTail.length = 7 from rfl),
      readBytesP_exact (ck ++ (hdr ++ rest)) hri,
      readBytesP_exact (hdr ++ rest) hck,
      readBytesP_exact rest hhdr, if_true,
      readBytesP_of_le hlen]
    rw [if_pos ⟨h9, hcap⟩]
  · intro t7 s0 h7 hne
    simp only [readBlockM, readBytesP_exact s0 h7]
    rw [if_neg hne]
  · intro s0 hlen
    match h7 : readBytesP 7 s0 with
    | .panicked => exact absurd h7 readBytesP_ne_panic
    | .err e => exact ⟨e, by simp only [readBlockM, h7]⟩
    | .ok t7 s1 =>
      by_cases ht : t7 = blockStarterTail
      · subst ht
        match h8 : readBytesP 8 s1 with
        | .panicked => exact absurd h8 readBytesP_ne_panic
        | .err e => exact ⟨e, by simp only [readBlockM, h7, h8, if_true]⟩
        | .ok ri1 s2 =>
          match h4 : readBytesP 4 s2 with
          | .panicked => exact absurd h4 readBytesP_ne_panic
          | .err e => exact ⟨e, by simp only [readBlockM, h7, h8, h4, if_true]⟩
          | .ok ck1 s3 =>
            have l1 := readBytesP_len_eq h7
            have l2 := readBytesP_len_eq h8
            have l3 := readBytesP_len_eq h4
            obtain ⟨e, h9⟩ := readBytesP_short (show s3.length < 9 by omega)
            exact ⟨e, by simp only [readBlockM, readChunkP, h7, h8, h4, h9, if_true]⟩
      · exact ⟨_, by
          simp only [readBlockM, h7]
          rw [if_neg ht]⟩
  · intro h9 hcap hlen
    obtain ⟨e, hp⟩ := readBytesP_short hlen
    exact ⟨e, by
      simp only [readBlockM, readChunkP, newDataBlock,
        readBytesP_exact (ri ++ (ck ++ (hdr ++ rest))) (show blockStarterTail.length = 7 from rfl),
        readBytesP_exact (ck ++ (hdr ++ rest)) hri,
        readBytesP_exact (hdr ++ rest) hck,
        readBytesP_exact rest hhdr, if_true, hp]
      rw [if_pos ⟨h9, hcap⟩]⟩

/-- Witness for **C8**: the `"hello"` block parses into exactly its
starter tail, recovery info, checksum, sizes 12/5 and buffered chunk,
consuming the whole record. -/
theorem read_block_structure_witness :
    readBlockM 16 (newDataBlock 16)
      (blockStarterTail ++ (List.replicate 8 0 ++ ([235, 2, 37, 13] ++
        ([69, 12, 5, 0, 0, 0, 128, 104, 101] ++ [108, 108, 111])))) =
      .ok { StarterTail := blockStarterTail
            RecoverInfo := List.replicate 8 0
            Checksum := [235, 2, 37, 13]
            CompressedChunk := ([69, 12, 5, 0, 0, 0, 128, 104, 101] ++
              [108, 108, 111].take (qlzSizeCompressed [69, 12, 5, 0, 0, 0, 128, 104, 101] - 9) ++
              (List.replicate 16 0).drop
                (qlzSizeCompressed [69, 12, 5, 0, 0, 0, 128, 104, 101])).take 16
            CompressedSize := qlzSizeCompressed [69, 12, 5, 0, 0, 0, 128, 104, 101]
            DecompressedSize := qlzSizeDecompressed [69, 12, 5, 0, 0, 0, 128, 104, 101]
            DecompressedOffset := 0 }
        ([108, 108, 111].drop (qlzSizeCompressed [69, 12, 5, 0, 0, 0, 128, 104, 101] - 9)) :=
  (read_block_structure 16 (List.replicate 8 0) [235, 2, 37, 13]
    [69, 12, 5, 0, 0, 0, 128, 104, 101] [108, 108, 111]
    (by decide) (by decide) (by decide)).1 (by decide) (by decide) (by decide)

/-- Counterexample for **C9** as stated: with an archive chunk size of 1
(smaller than 9) a well-formed block still parses successfully — the
mini-header slice `CompressedChunk[:9]` reaches into the buffer's
capacity `ChunkSize + 400` and is legal, so no slice-bounds panic
occurs on that account. -/
theorem chunk_size_below_nine_parses :
    readBlockM 1 (newDataBlock 1) helloBlockBytes =
      .ok { StarterTail := blockStarterTail
            RecoverInfo := List.replicate 8 0
            Checksum := [235, 2, 37, 13]
            CompressedChunk := [69]
            CompressedSize := 12
            DecompressedSize := 5
            DecompressedOffset := 0 } [] ∧
    readBlockM 1 (newDataBlock 1) helloBlockBytes ≠ .panicked := by
  refine ⟨by decide, by decide⟩

/-- Claim C9 (amended): block parsing is not total, but the slice-bounds
panic comes only from the payload slice
`CompressedChunk[9:compressedTotalSize]`: with the record's fixed-size
fields present, the parse panics precisely when the mini-header's
declared compressed total size is below 9 or above `ChunkSize + 400`;
an archive chunk size smaller than 9 does not by itself panic, because
`CompressedChunk[:9]` slices within the capacity `ChunkSize + 400`. -/
theorem read_chunk_panic_characterization (c : Nat) (ri ck hdr rest : List Nat)
    (hri : ri.length = 8) (hck : ck.length = 4) (hhdr : hdr.length = 9) :
    readBlockM c (newDataBlock c) (blockStarterTail ++ (ri ++ (ck ++ (hdr ++ rest)))) =
      .panicked ↔
      ¬(9 ≤ qlzSizeCompressed hdr ∧ qlzSizeCompressed hdr ≤ c + 400) := by
  constructor
  · intro h hbounds
    simp only [readBlockM, readChunkP, newDataBlock,
      readBytesP_exact (ri ++ (ck ++ (hdr ++ rest))) (show blockStarterTail.length = 7 from rfl),
      readBytesP_exact (ck ++ (hdr ++ rest)) hri,
      readBytesP_exact (hdr ++ rest) hck,
      readBytesP_exact rest hhdr, if_true] at h
    rw [if_pos hbounds] at h
    split at h
    · rename_i hp
      exact absurd hp readBytesP_ne_panic
    · cases h
    · cases h
  · intro hnb
    simp only [readBlockM, readChunkP, newDataBlock,
      readBytesP_exact (ri ++ (ck ++ (hdr ++ rest))) (show blockStarterTail.length = 7 from rfl),
      readBytesP_exact (ck ++ (hdr ++ rest)) hri,
      readBytesP_exact (hdr ++ rest) hck,
      readBytesP_exact rest hhdr, if_true]
    rw [if_neg hnb]

/-- Witness for the amended **C9**: a long-form mini-header declaring a
compressed total size of 500 with chunk size 16 (capacity 416) panics. -/
theorem read_chunk_panic_characterization_witness :
    readBlockM 16 (newDataBlock 16)
      (blockStarterTail ++ (List.replicate 8 0 ++ ([235, 2, 37, 13] ++
        ([70, 244, 1, 0, 0, 5, 0, 0, 0] ++ [])))) = .panicked :=
  (read_chunk_panic_characterization 16 (List.replicate 8 0) [235, 2, 37, 13]
    [70, 244, 1, 0, 0, 5, 0, 0, 0] [] (by decide) (by decide) (by decide)).mpr (by decide)

theorem fileTargetDecompress_dirs {dec : List Nat → Nat → Option (List Nat)} {c : Nat}
    {base : List Char} {l : Int} {s : List Nat} {fs : FS} {res : Except GoErr Unit}
    {s' : List Nat} {fs' : FS} (h : fileTargetDecompress dec c base l s fs = .out res s' fs') :
    fs'.dirs = fs.dirs := by
  unfold fileTargetDecompress at h
  split at h
  · simp at h
  · cases h
    rfl
  · dsimp only at h
    split at h
    · cases h
      rfl
    · split at h
      · simp at h
      · cases h
        rfl

theorem archiveStep_halt_dirs {dec : List Nat → Nat → Option (List Nat)} {c : Nat}
    {base : List Char} {l : Int} {s : List Nat} {fs : FS} {res : Except GoErr Bool}
    {s' : List Nat} {fs' : FS} (h : archiveStep dec c base l s fs = .halt res s' fs') :
    fs'.dirs = fs.dirs := by
  unfold archiveStep at h
  split at h
  · simp at h
  · split at h
    · cases h; rfl
    · cases h; rfl
  · split at h
    · cases h; rfl
    · split at h
      · split at h
        · simp at h
        · cases h; rfl
        · cases h; rfl
      · split at h
        · cases h; rfl
        · split at h
          · split at h
            · simp at h
            · rename_i e s2 fs2 hfile
              split at h
              · cases h
                exact fileTargetDecompress_dirs hfile
              · cases h
                exact fileTargetDecompress_dirs hfile
            · simp at h
          · cases h; rfl

theorem archiveStep_next_dirs {dec : List Nat → Nat → Option (List Nat)} {c : Nat}
    {base : List Char} {l : Int} {s : List Nat} {fs : FS} {s' : List Nat} {fs' : FS}
    (h : archiveStep dec c base l s fs = .next s' fs') : fs'.dirs = fs.dirs := by
  unfold archiveStep at h
  split at h
  · simp at h
  · split at h
    · simp at h
    · simp at h
  · split at h
    · simp at h
    · split at h
      · split at h
        · simp at h
        · simp at h
        · simp at h
      · split at h
        · simp at h
        · split at h
          · split at h
            · simp at h
            · rename_i e s2 fs2 hfile
              split at h
              · simp at h
              · simp at h
            · rename_i u s2 fs2 hfile
              cases h
              exact fileTargetDecompress_dirs hfile
          · simp at h

theorem archiveLoopF_dirs {dec : List Nat → Nat → Option (List Nat)} {fuel c : Nat}
    {base : List Char} {l : Int} {s : List Nat} {fs : FS} {res : Except GoErr Bool}
    {s' : List Nat} {fs' : FS} (hfuel : s.length < fuel)
    (h : archiveLoopF dec fuel c base l s fs = .out res s' fs') : fs'.dirs = fs.dirs := by
  induction fuel generalizing s fs res s' fs' with
  | zero => omega
  | succ fuel ih =>
    simp only [archiveLoopF] at h
    split at h
    · simp at h
    · rename_i res1 s1 fs1 hstep
      cases h
      exact archiveStep_halt_dirs hstep
    · rename_i s1 fs1 hstep
      have h1 : s1.length < s.length := archiveStep_next_length hstep
      have h2 := archiveStep_next_dirs hstep
      have h3 := ih (show s1.length < fuel by omega) h
      rw [h3, h2]

/-- Claim C10: every call to `ArchiveFile.Decompress` or
`ArchiveFile.DecompressStream` that successfully reads the archive
header creates the directory `"tmp"` (relative to the working
directory) whatever the base directory, the sink, or the archive's
target list; an already-existing `"tmp"` is tolerated and decoding
proceeds on the unchanged filesystem, while any other `os.Mkdir`
failure aborts the decode with that error. -/
theorem tmp_dir_created (dec : List Nat → Nat → Option (List Nat)) (base : List Char)
    (l : Int) (s s1 : List Nat) (cs : Nat) (fs : FS)
    (hhdr : readFileHeaderP s = .ok cs s1) :
    (fs.dirs.contains (strData "tmp") = false → fs.mkdirDenied = false →
      (∀ res s' fs', archiveDecompress dec base l s fs = .out res s' fs' →
        strData "tmp" ∈ fs'.dirs) ∧
      (∀ res s' fs' w, archiveDecompressStream dec l s fs = .out res s' fs' w →
        strData "tmp" ∈ fs'.dirs)) ∧
    (fs.dirs.contains (strData "tmp") = true →
      archiveDecompress dec base l s fs = archiveLoop dec cs base l s1 fs ∧
      (∀ res s2 w, archiveStreamLoop dec cs l s1 = .out res s2 w →
        archiveDecompressStream dec l s fs = .out res s2 fs w)) ∧
    (fs.dirs.contains (strData "tmp") = false → fs.mkdirDenied = true →
      archiveDecompress dec base l s fs = .out (.error (.permission (strData "tmp"))) s1 fs ∧
      archiveDecompressStream dec l s fs =
        .out (.error (.permission (strData "tmp"))) s1 fs []) := by
  refine ⟨?_, ?_, ?_⟩
  · intro hnc hnd
    have hmk : osMkdirTmp fs = .ok { fs with dirs := strData "tmp" :: fs.dirs } := by
      unfold osMkdirTmp
      rw [if_neg (by rw [hnc]; exact Bool.false_ne_true),
          if_neg (by rw [hnd]; exact Bool.false_ne_true)]
    constructor
    · intro res s' fs' hrun
      simp only [archiveDecompress, hhdr, hmk] at hrun
      have := archiveLoopF_dirs (Nat.lt_succ_self _) hrun
      rw [this]
      exact List.mem_cons_self _ _
    · intro res s' fs' w hrun
      simp only [archiveDecompressStream, hhdr, hmk] at hrun
      split at hrun
      · simp at hrun
      · cases hrun
        exact List.mem_cons_self _ _
  · intro hc
    have hmk : osMkdirTmp fs = .error (.exist (strData "tmp")) := by
      unfold osMkdirTmp
      rw [if_pos hc]
    constructor
    · simp only [archiveDecompress, hhdr, hmk, isExistErr, if_true]
    · intro res s2 w hloop
      simp only [archiveDecompressStream, hhdr, hmk, isExistErr, if_true, hloop]
  · intro hnc hd
    have hmk : osMkdirTmp fs = .error (.permission (strData "tmp")) := by
      unfold osMkdirTmp
      rw [if_neg (by rw [hnc]; exact Bool.false_ne_true), if_pos hd]
    constructor
    · simp only [archiveDecompress, hhdr, hmk, isExistErr]
      rw [if_neg (by exact Bool.false_ne_true)]
    · simp only [archiveDecompressStream, hhdr, hmk, isExistErr]
      rw [if_neg (by exact Bool.false_ne_true)]

/-- Witness for **C10**: decoding a header-only archive (no targets at
all) into an empty filesystem creates the `"tmp"` directory. -/
theorem tmp_dir_created_witness :
    strData "tmp" ∈ (FS.mk [] [strData "tmp"] false).dirs :=
  ((tmp_dir_created decZeros [] 0 (qpressMagic ++ ([16, 0, 0, 0, 0, 0, 0, 0] ++ [])) [] 16
      emptyFS (by decide)).1 (by decide) (by decide)).1
    (.ok false) [] (FS.mk [] [strData "tmp"] false) (by rfl)
